import Mathlib

/-!
Shallow embedding of the `twm` workspace manager (Rust) for specification
checking.  Each definition is translated from the corresponding item in the
repository's source:

* `src/workspace.rs` — workspace conditions and workspace-type resolution;
* `src/config.rs`    — conversion of raw configuration into the in-memory
                       configuration (`WorkspaceDefinitionConfig` →
                       `WorkspaceDefinition`, `RawTwmGlobal` → `TwmGlobal`);
* `src/layout.rs`    — layout-inheritance flattening;
* `src/tmux.rs`      — session-name sanitization and the recursive,
                       collision-aware session-name resolver, together with
                       the create-or-attach behaviour of `open_workspace`;
* `src/matches.rs`   — the directory walk and the exclusion filter;
* `src/ui/picker.rs` — the picker's selection-movement state machine.

A directory's file listing is modelled as a predicate `String → Bool`
(`path.join(file).exists()` in the source); the live tmux server state is
modelled as an association list from session names to their optional
`TWM_ROOT` environment marker.  Functions that are generally recursive in the
source (the name resolver, layout flattening) take an explicit fuel argument
and return `Option`, `none` meaning the fuel ran out.
-/

namespace Twm

/-! ### Condition engine (`src/workspace.rs`) -/

/-- `WorkspaceConditionEnum` from `src/workspace.rs`: the closed set of
condition variants dispatched by `enum_dispatch`. -/
inductive WorkspaceConditionEnum where
  | hasAnyFile (files : List String)
  | hasAllFiles (files : List String)
  | missingAnyFile (files : List String)
  | missingAllFiles (files : List String)
  | null
  deriving DecidableEq, Repr

/-- `meets_condition` for each variant.  The directory is the predicate
`fs : String → Bool` telling whether `path.join(file).exists()`.  Each loop in
the source is the corresponding short-circuiting `List.any`/`List.all`. -/
def meetsCondition (c : WorkspaceConditionEnum) (fs : String → Bool) : Bool :=
  match c with
  | .hasAnyFile files => files.any (fun file => fs file)
  | .hasAllFiles files => files.all (fun file => fs file)
  | .missingAnyFile files => files.any (fun file => !fs file)
  | .missingAllFiles files => files.all (fun file => !fs file)
  | .null => true

/-- `WorkspaceDefinition` from `src/workspace.rs`. -/
structure WorkspaceDefinition where
  name : String
  conditions : List WorkspaceConditionEnum
  default_layout : Option String
  deriving DecidableEq, Repr

/-- `path_meets_workspace_conditions`: all conditions hold (strict AND). -/
def pathMeetsWorkspaceConditions (fs : String → Bool)
    (conditions : List WorkspaceConditionEnum) : Bool :=
  conditions.all (fun c => meetsCondition c fs)

/-- `get_workspace_type_for_path`: first definition whose conditions all hold
wins; `none` if no definition matches. -/
def getWorkspaceTypeForPath (fs : String → Bool) :
    List WorkspaceDefinition → Option String
  | [] => none
  | w :: rest =>
    if pathMeetsWorkspaceConditions fs w.conditions then some w.name
    else getWorkspaceTypeForPath fs rest

/-- Modelled from the spec's words (for comparison with the code): the name of
the first definition in the list all of whose conditions hold for the
directory. -/
def specFirstMatchingDefinition (fs : String → Bool)
    (defs : List WorkspaceDefinition) : Option String :=
  (defs.find? (fun w => pathMeetsWorkspaceConditions fs w.conditions)).map
    (fun w => w.name)

/-! ### Configuration conversion (`src/config.rs`) -/

/-- `WorkspaceDefinitionConfig` from `src/config.rs`: the raw, deserialized
form of a workspace definition. -/
structure WorkspaceDefinitionConfig where
  name : String
  has_any_file : Option (List String)
  has_all_files : Option (List String)
  missing_any_file : Option (List String)
  missing_all_files : Option (List String)
  default_layout : Option String
  deriving DecidableEq, Repr

/-- `impl From<WorkspaceDefinitionConfig> for WorkspaceDefinition`
(`src/config.rs`).  Note that the source pushes a `HasAnyFileCondition` for
the `has_all_files` list as well. -/
def workspaceDefinitionFromConfig (config : WorkspaceDefinitionConfig) :
    WorkspaceDefinition :=
  let conditions : List WorkspaceConditionEnum := []
  let conditions :=
    match config.has_any_file with
    | some files =>
      if files.isEmpty then conditions
      else conditions ++ [.hasAnyFile files]
    | none => conditions
  let conditions :=
    match config.has_all_files with
    | some files =>
      if files.isEmpty then conditions
      else conditions ++ [.hasAnyFile files]
    | none => conditions
  let conditions :=
    match config.missing_any_file with
    | some files =>
      if files.isEmpty then conditions
      else conditions ++ [.missingAnyFile files]
    | none => conditions
  let conditions :=
    match config.missing_all_files with
    | some files =>
      if files.isEmpty then conditions
      else conditions ++ [.missingAllFiles files]
    | none => conditions
  let conditions := if conditions.isEmpty then [.null] else conditions
  { name := config.name
    conditions := conditions
    default_layout := config.default_layout }

/-! ### Layout flattening (`src/layout.rs`) -/

/-- `LayoutDefinition` from `src/layout.rs`. -/
structure LayoutDefinition where
  name : String
  inherits : Option (List String)
  commands : Option (List String)
  deriving DecidableEq, Repr

/-- `get_layout_by_name`: first layout with the given name. -/
def getLayoutByName (name : String) (layouts : List LayoutDefinition) :
    Option LayoutDefinition :=
  layouts.find? (fun l => l.name == name)

/-- The `for inherits_from_name in inherits_list` loop of
`get_commands_from_layout`: apply the per-name flattener to each name in
listed order and concatenate the results (propagating a fuel failure). -/
def flattenNamesWith (f : String → Option (List String)) :
    List String → Option (List String)
  | [] => some []
  | n :: rest =>
    match f n, flattenNamesWith f rest with
    | some h, some t => some (h ++ t)
    | _, _ => none

/-- The inheritance recursion shared by `get_commands_from_layout` and
`get_commands_from_layout_name`: flatten, in listed order, the command lists
of each named layout (a missing name contributes `[]`, a found layout
contributes its recursively flattened inherited commands followed by its own
`commands`), concatenating the results.  The source recursion is unbounded
(no cycle detection), so the embedding takes fuel, decremented at each
inheritance level; `none` means the fuel ran out before the recursion
bottomed out. -/
def flattenLayoutNames (layouts : List LayoutDefinition) :
    Nat → List String → Option (List String)
  | 0, names =>
    match names with
    | [] => some []
    | _ :: _ => none
  | fuel + 1, names =>
    flattenNamesWith
      (fun n =>
        match getLayoutByName n layouts with
        | none => some []
        | some l =>
          (flattenLayoutNames layouts fuel (l.inherits.getD [])).map
            (fun cs => cs ++ l.commands.getD []))
      names

/-- `get_commands_from_layout`: inherited commands (in listed order) followed
by the layout's own commands. -/
def getCommandsFromLayout (fuel : Nat) (layout : LayoutDefinition)
    (layouts : List LayoutDefinition) : Option (List String) :=
  (flattenLayoutNames layouts fuel (layout.inherits.getD [])).map
    (fun cs => cs ++ layout.commands.getD [])

/-- `get_commands_from_layout_name`: look the name up; an unknown name yields
the empty command list (no error). -/
def getCommandsFromLayoutName (fuel : Nat) (name : String)
    (layouts : List LayoutDefinition) : Option (List String) :=
  match getLayoutByName name layouts with
  | some l => getCommandsFromLayout fuel l layouts
  | none => some []

/-! ### Global configuration (`src/config.rs`) -/

/-- `RawTwmGlobal` from `src/config.rs` (the deserialized configuration). -/
structure RawTwmGlobal where
  search_paths : List String
  workspace_definitions : List WorkspaceDefinitionConfig
  max_search_depth : Nat
  session_name_path_components : Nat
  exclude_path_components : List String
  layouts : List LayoutDefinition
  follow_links : Bool
  deriving DecidableEq, Repr

/-- `TwmGlobal` from `src/config.rs`. -/
structure TwmGlobal where
  search_paths : List String
  exclude_path_components : List String
  workspace_definitions : List WorkspaceDefinition
  session_name_path_components : Nat
  layouts : List LayoutDefinition
  max_search_depth : Nat
  follow_links : Bool
  deriving DecidableEq, Repr

/-- `impl From<RawTwmGlobal> for TwmGlobal`: a total conversion — workspace
definitions are converted one by one, layouts are passed through unchanged,
and nothing is validated.  (The source additionally tilde-expands
`search_paths` via an external crate; expansion is external to the embedded
core and the paths are carried through as given.) -/
def twmGlobalFromRaw (raw : RawTwmGlobal) : TwmGlobal :=
  { search_paths := raw.search_paths
    exclude_path_components := raw.exclude_path_components
    workspace_definitions :=
      raw.workspace_definitions.map workspaceDefinitionFromConfig
    layouts := raw.layouts
    max_search_depth := raw.max_search_depth
    session_name_path_components := raw.session_name_path_components
    follow_links := raw.follow_links }

/-! ### Session names and the tmux model (`src/tmux.rs`) -/

/-- Helper for `splitSlash`. -/
def splitSlashAux : List Char → List Char → List String
  | [], acc => [String.mk acc.reverse]
  | c :: cs, acc =>
    if c = '/' then String.mk acc.reverse :: splitSlashAux cs []
    else splitSlashAux cs (c :: acc)

/-- Rust's `str::split('/')` on the path: the list of components between
slashes, keeping empty components (so a leading slash yields a leading
empty component). -/
def splitSlash (s : String) : List String :=
  splitSlashAux s.data []

/-- The character replacement of `impl From<&str> for SessionName`: `'.'`
(illegal in a tmux target name) becomes `'_'`, every other character is kept. -/
def sanitizeChar (c : Char) : Char :=
  if c = '.' then '_' else c

/-- `SessionName::from(&str)`: replace each illegal character. -/
def sessionNameFrom (s : String) : String :=
  String.mk (s.data.map sanitizeChar)

/-- The last `pathComponents` components of the path, in path order
(`path.split('/').rev().take(k)` then `reverse` in the source). -/
def lastPathComponents (path : String) (pathComponents : Nat) : List String :=
  ((splitSlash path).reverse.take pathComponents).reverse

/-- `SessionName::new`: join the last `pathComponents` components of the path
with `/` and sanitize the result. -/
def sessionNameNew (path : String) (pathComponents : Nat) : String :=
  sessionNameFrom (String.intercalate "/" (lastPathComponents path pathComponents))

/-- The live tmux server state: each session is a name paired with its
optional `TWM_ROOT` environment marker (`none` for a foreign or broken
session). -/
abbrev TmuxState := List (String × Option String)

/-- `tmux_has_session`: does a session with this name exist? -/
def hasSession (st : TmuxState) (name : String) : Bool :=
  st.any (fun s => s.1 == name)

/-- `get_twm_root_for_session`: the session's `TWM_ROOT` marker; `none` when
the session does not exist or the marker is absent (both are `Err` in the
source). -/
def getTwmRoot (st : TmuxState) (name : String) : Option String :=
  match st.find? (fun s => s.1 == name) with
  | some s => s.2
  | none => none

/-- `get_session_name_recursive` with explicit fuel (the source recursion is
bounded only by the collisions it encounters): accept the candidate name when
no session carries it, or when the carrying session's `TWM_ROOT` equals the
target path; on a readable-but-different marker retry with one more path
component; on an absent marker retry with two more. -/
def getSessionNameRecursive (st : TmuxState) (path : String) :
    Nat → Nat → Option String
  | _, 0 => none
  | pathComponents, fuel + 1 =>
    let name := sessionNameNew path pathComponents
    if hasSession st name then
      match getTwmRoot st name with
      | some twmRoot =>
        if twmRoot == path then some name
        else getSessionNameRecursive st path (pathComponents + 1) fuel
      | none => getSessionNameRecursive st path (pathComponents + 2) fuel
    else some name

/-- Result of `open_workspace`: the tmux state afterwards, the resolved
session name, and whether a session was created (as opposed to attaching to
an existing one). -/
structure OpenResult where
  state : TmuxState
  name : String
  created : Bool
  deriving DecidableEq, Repr

/-- `open_workspace` (no explicit `--name`, layouts elided): resolve the
session name; if no session with that name exists, create one whose
`TWM_ROOT` marker is the workspace path; otherwise attach to the existing
session. -/
def openWorkspace (st : TmuxState) (path : String) (pathComponents fuel : Nat) :
    Option OpenResult :=
  match getSessionNameRecursive st path pathComponents fuel with
  | none => none
  | some name =>
    if hasSession st name then some ⟨st, name, false⟩
    else some ⟨(name, some path) :: st, name, true⟩

/-! ### Workspace scanner (`src/matches.rs`) -/

/-- A filesystem entry: a file, or a directory with its children.  Condition
file names are modelled as single path components, so `path.join(file)`
exists exactly when a direct child carries that name. -/
inductive FsEntry where
  | file (name : String)
  | dir (name : String) (children : List FsEntry)

/-- The entry's own name. -/
def FsEntry.entryName : FsEntry → String
  | .file n => n
  | .dir n _ => n

/-- `path.join(file).exists()` against a directory's children. -/
def fileExistsIn (children : List FsEntry) (file : String) : Bool :=
  children.any (fun c => c.entryName == file)

/-- One entry yielded by the walk: its full path (as components, including
the search root's own components) and, when it is a directory, its children
(used to evaluate conditions); `none` marks a plain file. -/
abbrev WalkEntry := List String × Option (List FsEntry)

/-- The entries yielded by `jwalk::WalkDir::new(dir).max_depth(d)`: the root
entry itself (depth 0) and, while the depth budget lasts, every entry of
every subdirectory.  No entry is skipped: the exclusion check in the source
is applied to this stream afterwards, not during the walk. -/
def walkEntries : Nat → List String → FsEntry → List WalkEntry
  | _, parent, .file n => [(parent ++ [n], none)]
  | 0, parent, .dir n _children => [(parent ++ [n], some _children)]
  | depth + 1, parent, .dir n children =>
    (parent ++ [n], some children) ::
      children.flatMap (fun c => walkEntries depth (parent ++ [n]) c)

/-- The filter closure of `find_workspaces_in_dir`: keep directories none of
whose path components equals a configured excluded component. -/
def pathHasExcludedComponent (excludes : List String) (path : List String) : Bool :=
  path.any (fun comp => excludes.any (fun e => comp == e))

/-- `find_workspaces_in_dir`: walk the root up to `max_search_depth`, keep
directory entries whose paths contain no excluded component, and emit each
kept directory that meets some workspace definition's conditions (the
definition loop breaks at the first match). -/
def findWorkspacesInDir (rootParent : List String) (root : FsEntry)
    (config : TwmGlobal) : List (List String) :=
  ((walkEntries config.max_search_depth rootParent root).filter
      (fun ent =>
        ent.2.isSome && !pathHasExcludedComponent config.exclude_path_components ent.1)).filterMap
    (fun ent =>
      match ent.2 with
      | some children =>
        if config.workspace_definitions.any
            (fun w => pathMeetsWorkspaceConditions (fileExistsIn children) w.conditions)
        then some ent.1
        else none
      | none => none)

/-! ### Picker selection movement (`src/ui/picker.rs`) -/

/-- `Picker::move_cursor_up`: the list is rendered bottom-to-top, so "up"
increments the selected index, saturating at the last match
(`matched_item_count - 1`); with no matches the selection is left untouched. -/
def moveCursorUp (itemCount : Nat) (sel : Option Nat) : Option Nat :=
  if itemCount = 0 then sel
  else
    match sel with
    | some i => if i ≥ itemCount - 1 then some i else some (i + 1)
    | none => some 0

/-- `Picker::move_cursor_down`: decrement the selected index, saturating at
the first match (index 0); with no selection select index 0. -/
def moveCursorDown (sel : Option Nat) : Option Nat :=
  match sel with
  | some 0 => some 0
  | some (i + 1) => some i
  | none => some 0

/-- The selection adjustment at the top of `Picker::render`: clear the
selection when the match set is empty, clamp it to `matchedCount - 1` when it
exceeds `matchedCount` (note the source compares with a strict `>`), and
select index 0 when there are matches but no selection. -/
def renderClampSelection (matchedCount : Nat) (sel : Option Nat) : Option Nat :=
  match sel with
  | some selected =>
    if matchedCount = 0 then none
    else if selected > matchedCount then some (matchedCount - 1)
    else some selected
  | none => if matchedCount > 0 then some 0 else none

/-- The selection-moving events the picker handles: an up key, a down key
(arrow keys and their control-key aliases), and a tick-driven render.  The
match count at the moment of the event is carried by the event, since the
match set evolves outside the picker. -/
inductive PickerEvent where
  | up (matchedCount : Nat)
  | down
  | tick (matchedCount : Nat)
  deriving DecidableEq, Repr

/-- One step of the picker's selection state machine. -/
def pickerStep (sel : Option Nat) : PickerEvent → Option Nat
  | .up c => moveCursorUp c sel
  | .down => moveCursorDown sel
  | .tick c => renderClampSelection c sel

/-- Run a sequence of events from the initial state (nothing selected). -/
def pickerRun (events : List PickerEvent) : Option Nat :=
  events.foldl pickerStep none

/-- The bound the claim states: a selected index lies at or below the last
visible match (index `matchedCount - 1`). -/
def selectionInBounds (matchedCount : Nat) (sel : Option Nat) : Bool :=
  match sel with
  | some i => i < matchedCount
  | none => true

/-! ### Concrete instances used by the claim theorems -/

/-- The `py` definition of the priority scenario. -/
def pyDef : WorkspaceDefinition := ⟨"py", [.hasAnyFile ["setup.py"]], none⟩

/-- The `git` definition of the priority scenario. -/
def gitDef : WorkspaceDefinition := ⟨"git", [.hasAnyFile [".git"]], none⟩

/-- A directory containing both `setup.py` and `.git`. -/
def pyGitFs : String → Bool := fun s => s == "setup.py" || s == ".git"

/-- `base`/`child` layouts of the flattening scenario. -/
def exampleLayouts : List LayoutDefinition :=
  [⟨"base", none, some ["x"]⟩, ⟨"child", some ["base"], some ["y"]⟩]

/-- A diamond-shaped inheritance graph: `dchild` inherits `a` and `b`, both
of which inherit `base`, so `base`'s commands are contributed twice. -/
def diamondLayouts : List LayoutDefinition :=
  [⟨"base", none, some ["x"]⟩, ⟨"a", some ["base"], none⟩, ⟨"b", some ["base"], none⟩,
   ⟨"dchild", some ["a", "b"], some ["y"]⟩]

/-- The raw configuration of the missing-layout scenario: its single
workspace definition names a `default_layout` that no configured layout
carries. -/
def danglingLayoutRaw : RawTwmGlobal :=
  { search_paths := []
    workspace_definitions := [⟨"w", none, none, none, none, some "nope"⟩]
    max_search_depth := 3
    session_name_path_components := 2
    exclude_path_components := []
    layouts := []
    follow_links := true }

/-- The scanner scenario tree: `root/proj/node_modules/pkg/.git`. -/
def exScanTree : FsEntry :=
  .dir "root" [.dir "proj" [.dir "node_modules" [.dir "pkg" [.dir ".git" []]]]]

/-- The scanner scenario configuration: `node_modules` excluded, one
definition matching directories containing `.git`. -/
def exScanConfig : TwmGlobal :=
  { search_paths := []
    exclude_path_components := ["node_modules"]
    workspace_definitions := [⟨"git", [.hasAnyFile [".git"]], none⟩]
    session_name_path_components := 1
    layouts := []
    max_search_depth := 10
    follow_links := true }

/-! ### Helper lemmas -/

theorem getWorkspaceTypeForPath_eq_find (fs : String → Bool) :
    ∀ defs : List WorkspaceDefinition,
      getWorkspaceTypeForPath fs defs = specFirstMatchingDefinition fs defs
  | [] => rfl
  | w :: rest => by
    unfold getWorkspaceTypeForPath specFirstMatchingDefinition
    by_cases h : pathMeetsWorkspaceConditions fs w.conditions
    · simp [h]
    · have hfalse : pathMeetsWorkspaceConditions fs w.conditions = false :=
        Bool.eq_false_iff.mpr h
      simp [hfalse]
      exact getWorkspaceTypeForPath_eq_find fs rest

/-! ### Claim theorems -/

/-- C10 (confirmed).  Condition predicate semantics: `HasAnyFile` holds iff
at least one listed file exists under the directory, `HasAllFiles` iff all
exist, `MissingAnyFile` iff at least one is absent, `MissingAllFiles` iff all
are absent, and `Null` always holds and is independent of the directory's
contents (it never touches the filesystem). -/
theorem c10_condition_predicate_semantics (fs : String → Bool) (files : List String) :
    (meetsCondition (.hasAnyFile files) fs = true ↔ ∃ f ∈ files, fs f = true) ∧
    (meetsCondition (.hasAllFiles files) fs = true ↔ ∀ f ∈ files, fs f = true) ∧
    (meetsCondition (.missingAnyFile files) fs = true ↔ ∃ f ∈ files, fs f = false) ∧
    (meetsCondition (.missingAllFiles files) fs = true ↔ ∀ f ∈ files, fs f = false) ∧
    meetsCondition .null fs = true ∧
    (∀ fs2 : String → Bool, meetsCondition .null fs = meetsCondition .null fs2) := by
  refine ⟨?_, ?_, ?_, ?_, rfl, fun _ => rfl⟩ <;>
    simp [meetsCondition, List.any_eq_true, List.all_eq_true]

/-- C3 (confirmed).  Workspace-type resolution returns the name of the first
definition all of whose conditions hold for the directory (`none` when no
definition matches); with definitions `[py: has_any_file [setup.py],
git: has_any_file [.git]]`, a directory containing both files resolves to
`py`, not `git`. -/
theorem c3_workspace_type_resolution :
    (∀ (fs : String → Bool) (defs : List WorkspaceDefinition),
        getWorkspaceTypeForPath fs defs = specFirstMatchingDefinition fs defs) ∧
    (∀ (fs : String → Bool) (defs : List WorkspaceDefinition),
        (∀ w ∈ defs, pathMeetsWorkspaceConditions fs w.conditions = false) →
        getWorkspaceTypeForPath fs defs = none) ∧
    getWorkspaceTypeForPath pyGitFs [pyDef, gitDef] = some "py" := by
  refine ⟨fun fs defs => getWorkspaceTypeForPath_eq_find fs defs, ?_, by decide⟩
  intro fs defs hnone
  rw [getWorkspaceTypeForPath_eq_find fs defs]
  unfold specFirstMatchingDefinition
  rw [List.find?_eq_none.mpr]
  · rfl
  · intro w hw
    simp [hnone w hw]

/-- C2 (confirmed).  A workspace-definition config whose only file rule is a
non-empty `has_all_files` list `F` derives a definition that matches a
directory iff at least one file of `F` exists under it: the conversion in
`src/config.rs` builds a `HasAnyFileCondition` from the `has_all_files`
list, so the derived definition is literally identical to the one derived
from `has_any_file = F`. -/
theorem c2_has_all_files_behaves_as_any (name : String) (dl : Option String)
    (F : List String) (fs : String → Bool) (hF : F ≠ []) :
    (pathMeetsWorkspaceConditions fs
        (workspaceDefinitionFromConfig ⟨name, none, some F, none, none, dl⟩).conditions = true ↔
      ∃ f ∈ F, fs f = true) ∧
    workspaceDefinitionFromConfig ⟨name, none, some F, none, none, dl⟩ =
      workspaceDefinitionFromConfig ⟨name, some F, none, none, none, dl⟩ := by
  have hne : F.isEmpty = false := by
    cases F with
    | nil => exact absurd rfl hF
    | cons a as => rfl
  constructor
  · simp [workspaceDefinitionFromConfig, hne, pathMeetsWorkspaceConditions,
      meetsCondition, List.any_eq_true]
  · simp [workspaceDefinitionFromConfig, hne]

/-- Witness for C2: config `{name: w, has_all_files: [flake.nix, .envrc]}`
against a directory containing only `flake.nix`. -/
theorem c2_witness :
    (pathMeetsWorkspaceConditions (fun s => s == "flake.nix")
        (workspaceDefinitionFromConfig
          ⟨"w", none, some ["flake.nix", ".envrc"], none, none, none⟩).conditions = true ↔
      ∃ f ∈ ["flake.nix", ".envrc"], (fun s : String => s == "flake.nix") f = true) ∧
    workspaceDefinitionFromConfig ⟨"w", none, some ["flake.nix", ".envrc"], none, none, none⟩ =
      workspaceDefinitionFromConfig ⟨"w", some ["flake.nix", ".envrc"], none, none, none, none⟩ :=
  c2_has_all_files_behaves_as_any "w" none ["flake.nix", ".envrc"]
    (fun s => s == "flake.nix") (by decide)

/-- No character of a sanitized string is a `'.'`: the replacement map sends
`'.'` to `'_'` and keeps every other character. -/
theorem sanitize_contains_no_dot : ∀ l : List Char, (l.map sanitizeChar).contains '.' = false
  | [] => rfl
  | c :: l => by
    have hc : ('.' == sanitizeChar c) = false := by
      unfold sanitizeChar
      by_cases h : c = '.'
      · simp [h]
      · rw [if_neg h]
        exact beq_eq_false_iff_ne.mpr (fun habs => h habs.symm)
    simp only [List.map_cons, List.contains_cons, hc, Bool.false_or]
    exact sanitize_contains_no_dot l

/-- C7 (confirmed).  The candidate session name is the last `k` path
components joined back together and sanitized; sanitization replaces each
multiplexer-illegal character (the source's illegal set is `'.'`, which tmux
treats as a target separator) with an underscore, so the produced name never
contains one. -/
theorem c7_session_name_sanitization (path : String) (k : Nat) :
    sessionNameNew path k =
      sessionNameFrom (String.intercalate "/" (lastPathComponents path k)) ∧
    sanitizeChar '.' = '_' ∧
    (sessionNameNew path k).data.contains '.' = false := by
  refine ⟨rfl, rfl, ?_⟩
  exact sanitize_contains_no_dot (String.intercalate "/" (lastPathComponents path k)).data

/-- The per-name flattener used at one inheritance level is exactly
`get_commands_from_layout_name` with one level less fuel. -/
theorem flattenLayoutNames_succ (layouts : List LayoutDefinition) (fuel : Nat)
    (names : List String) :
    flattenLayoutNames layouts (fuel + 1) names =
      flattenNamesWith (fun n => getCommandsFromLayoutName fuel n layouts) names := by
  unfold flattenLayoutNames
  congr 1
  funext n
  unfold getCommandsFromLayoutName getCommandsFromLayout
  cases getLayoutByName n layouts <;> rfl

/-- C5 (confirmed).  Flattening a layout yields the concatenation, in listed
order, of the recursively flattened command lists of each name in its
`inherits` list, followed by its own `commands`; a layout reachable via
multiple inheritance paths contributes its commands once per visit (the
diamond example duplicates `x`); `child` with `inherits [base]`,
`base.commands = [x]`, `child.commands = [y]` flattens to `[x, y]`. -/
theorem c5_layout_flattening :
    (∀ (fuel : Nat) (layout : LayoutDefinition) (layouts : List LayoutDefinition)
        (res : List String),
        getCommandsFromLayout fuel layout layouts = some res →
        ∃ inherited,
          flattenLayoutNames layouts fuel (layout.inherits.getD []) = some inherited ∧
          res = inherited ++ layout.commands.getD []) ∧
    (∀ (fuel : Nat) (layouts : List LayoutDefinition) (n : String)
        (rest res : List String),
        flattenLayoutNames layouts (fuel + 1) (n :: rest) = some res →
        ∃ h t, getCommandsFromLayoutName fuel n layouts = some h ∧
          flattenLayoutNames layouts (fuel + 1) rest = some t ∧ res = h ++ t) ∧
    getCommandsFromLayoutName 10 "child" exampleLayouts = some ["x", "y"] ∧
    getCommandsFromLayoutName 10 "dchild" diamondLayouts = some ["x", "x", "y"] := by
  refine ⟨?_, ?_, by decide, by decide⟩
  · intro fuel layout layouts res h
    unfold getCommandsFromLayout at h
    cases hf : flattenLayoutNames layouts fuel (layout.inherits.getD []) with
    | none => rw [hf] at h; exact absurd h (by simp)
    | some inherited =>
      rw [hf] at h
      simp only [Option.map_some', Option.some.injEq] at h
      exact ⟨inherited, rfl, h.symm⟩
  · intro fuel layouts n rest res h
    rw [flattenLayoutNames_succ] at h
    unfold flattenNamesWith at h
    cases hn : getCommandsFromLayoutName fuel n layouts with
    | none => rw [hn] at h; exact absurd h (by simp)
    | some hd =>
      rw [hn] at h
      cases hr : flattenNamesWith (fun m => getCommandsFromLayoutName fuel m layouts) rest with
      | none => rw [hr] at h; exact absurd h (by simp)
      | some tl =>
        rw [hr] at h
        simp only [Option.some.injEq] at h
        exact ⟨hd, tl, rfl, by rw [flattenLayoutNames_succ]; exact hr, h.symm⟩

/-- Counterexample to C8: loading (converting) a configuration whose only
workspace definition references the nonexistent layout `nope` succeeds — the
conversion is total, raises nothing, and keeps the dangling reference — and
at open time the unknown layout name resolves to the empty command list
rather than an error. -/
theorem c8_counterexample :
    twmGlobalFromRaw danglingLayoutRaw =
      { search_paths := []
        exclude_path_components := []
        workspace_definitions := [⟨"w", [.null], some "nope"⟩]
        session_name_path_components := 2
        layouts := []
        max_search_depth := 3
        follow_links := true } ∧
    getCommandsFromLayoutName 10 "nope" (twmGlobalFromRaw danglingLayoutRaw).layouts =
      some [] := by decide

/-- C8 (corrected).  A workspace definition's missing `default_layout` is not
caught at config-load time: the `RawTwmGlobal → TwmGlobal` conversion is a
total function that validates nothing (layouts pass through unchanged and
every definition is converted, dangling reference included), and at
workspace-open time an unknown layout name silently yields the empty command
list instead of an error. -/
theorem c8_missing_layout_not_caught :
    (∀ raw : RawTwmGlobal,
        (twmGlobalFromRaw raw).layouts = raw.layouts ∧
        (twmGlobalFromRaw raw).workspace_definitions =
          raw.workspace_definitions.map workspaceDefinitionFromConfig) ∧
    (∀ (fuel : Nat) (name : String) (layouts : List LayoutDefinition),
        getLayoutByName name layouts = none →
        getCommandsFromLayoutName fuel name layouts = some []) ∧
    getCommandsFromLayoutName 10 "nope" [] = some [] := by
  refine ⟨fun raw => ⟨rfl, rfl⟩, ?_, by decide⟩
  intro fuel name layouts h
  unfold getCommandsFromLayoutName
  rw [h]

/-! ### Resolver lemmas -/

theorem hasSession_cons_self (st : TmuxState) (n : String) (r : Option String) :
    hasSession ((n, r) :: st) n = true := by
  simp [hasSession]

theorem getTwmRoot_cons_self (st : TmuxState) (n : String) (r : Option String) :
    getTwmRoot ((n, r) :: st) n = r := by
  simp [getTwmRoot]

theorem hasSession_cons_ne (st : TmuxState) {m n : String} (r : Option String)
    (h : m ≠ n) : hasSession ((n, r) :: st) m = hasSession st m := by
  have : (n == m) = false := beq_eq_false_iff_ne.mpr (fun habs => h habs.symm)
  simp [hasSession, this]

theorem getTwmRoot_cons_ne (st : TmuxState) {m n : String} (r : Option String)
    (h : m ≠ n) : getTwmRoot ((n, r) :: st) m = getTwmRoot st m := by
  have : (n == m) = false := beq_eq_false_iff_ne.mpr (fun habs => h habs.symm)
  simp [getTwmRoot, List.find?, this]

/-- Resolver step: a free name is accepted. -/
theorem resolve_step_free (st : TmuxState) (path : String) (k fuel : Nat)
    (hs : hasSession st (sessionNameNew path k) = false) :
    getSessionNameRecursive st path k (fuel + 1) = some (sessionNameNew path k) := by
  simp [getSessionNameRecursive, hs]

/-- Resolver step: a taken name whose marker equals the target path is
accepted (the attach case). -/
theorem resolve_step_same (st : TmuxState) (path : String) (k fuel : Nat)
    (hs : hasSession st (sessionNameNew path k) = true)
    (hr : getTwmRoot st (sessionNameNew path k) = some path) :
    getSessionNameRecursive st path k (fuel + 1) = some (sessionNameNew path k) := by
  simp [getSessionNameRecursive, hs, hr]

/-- Resolver step: a taken name with a readable but different marker retries
with one more path component. -/
theorem resolve_step_mismatch (st : TmuxState) (path : String) (k fuel : Nat)
    (r : String) (hs : hasSession st (sessionNameNew path k) = true)
    (hr : getTwmRoot st (sessionNameNew path k) = some r) (hne : r ≠ path) :
    getSessionNameRecursive st path k (fuel + 1) =
      getSessionNameRecursive st path (k + 1) fuel := by
  simp [getSessionNameRecursive, hs, hr, beq_eq_false_iff_ne.mpr hne]

/-- Resolver step: a taken name with an absent marker retries with two more
path components. -/
theorem resolve_step_absent (st : TmuxState) (path : String) (k fuel : Nat)
    (hs : hasSession st (sessionNameNew path k) = true)
    (hr : getTwmRoot st (sessionNameNew path k) = none) :
    getSessionNameRecursive st path k (fuel + 1) =
      getSessionNameRecursive st path (k + 2) fuel := by
  simp [getSessionNameRecursive, hs, hr]

/-- A name the resolver accepts either carries no session, or carries a
session whose `TWM_ROOT` marker is the target path. -/
theorem resolve_accepted (st : TmuxState) (path : String) :
    ∀ (fuel k : Nat) (n : String),
      getSessionNameRecursive st path k fuel = some n →
      hasSession st n = false ∨ getTwmRoot st n = some path := by
  intro fuel
  induction fuel with
  | zero =>
    intro k n h
    exact absurd h (by simp [getSessionNameRecursive])
  | succ fuel ih =>
    intro k n h
    by_cases hs : hasSession st (sessionNameNew path k) = true
    · cases hr : getTwmRoot st (sessionNameNew path k) with
      | some r =>
        by_cases hrp : r = path
        · rw [hrp] at hr
          rw [resolve_step_same st path k fuel hs hr] at h
          have hn : sessionNameNew path k = n := Option.some.inj h
          right
          rw [← hn, hr]
        · rw [resolve_step_mismatch st path k fuel r hs hr hrp] at h
          exact ih _ _ h
      | none =>
        rw [resolve_step_absent st path k fuel hs hr] at h
        exact ih _ _ h
    · have hs' : hasSession st (sessionNameNew path k) = false := Bool.eq_false_iff.mpr hs
      rw [resolve_step_free st path k fuel hs'] at h
      have hn : sessionNameNew path k = n := Option.some.inj h
      left
      rw [← hn]
      exact hs'

/-- Resolution is unchanged by a state change that only touches the resolved
name `n`, provided the new state carries `n` with marker equal to the target
path: every rejected candidate is rejected the same way, and `n` itself is
accepted. -/
theorem resolve_stable (st st' : TmuxState) (path n : String)
    (hhas : hasSession st' n = true) (hroot : getTwmRoot st' n = some path)
    (hagreeHas : ∀ m, m ≠ n → hasSession st' m = hasSession st m)
    (hagreeRoot : ∀ m, m ≠ n → getTwmRoot st' m = getTwmRoot st m) :
    ∀ fuel k, getSessionNameRecursive st path k fuel = some n →
      getSessionNameRecursive st' path k fuel = some n := by
  intro fuel
  induction fuel with
  | zero =>
    intro k h
    exact absurd h (by simp [getSessionNameRecursive])
  | succ fuel ih =>
    intro k h
    by_cases hname : sessionNameNew path k = n
    · rw [resolve_step_same st' path k fuel (by rw [hname]; exact hhas)
        (by rw [hname, hroot])]
      rw [hname]
    · have h1 := hagreeHas _ hname
      have h2 := hagreeRoot _ hname
      by_cases hs : hasSession st (sessionNameNew path k) = true
      · cases hr : getTwmRoot st (sessionNameNew path k) with
        | some r =>
          by_cases hrp : r = path
          · rw [hrp] at hr
            rw [resolve_step_same st path k fuel hs hr] at h
            exact absurd (Option.some.inj h) hname
          · rw [resolve_step_mismatch st path k fuel r hs hr hrp] at h
            rw [resolve_step_mismatch st' path k fuel r (h1.trans hs) (h2.trans hr) hrp]
            exact ih _ h
        | none =>
          rw [resolve_step_absent st path k fuel hs hr] at h
          rw [resolve_step_absent st' path k fuel (h1.trans hs) (h2.trans hr)]
          exact ih _ h
      · have hs' : hasSession st (sessionNameNew path k) = false := Bool.eq_false_iff.mpr hs
        rw [resolve_step_free st path k fuel hs'] at h
        exact absurd (Option.some.inj h) hname

/-! ### Claim theorems (session naming) -/

/-- Counterexample to C1: a foreign session literally named `bar` with no
root-path marker exists; resolving `/a/foo/bar` starting from 1 path
component escalates past the 2-component name `foo/bar` straight to the
3-component name `a/foo/bar`, because the absent-marker branch of
`get_session_name_recursive` retries with `path_components + 2`. -/
theorem c1_counterexample :
    hasSession [("bar", none)] (sessionNameNew "/a/foo/bar" 1) = true ∧
    getTwmRoot [("bar", none)] (sessionNameNew "/a/foo/bar" 1) = none ∧
    sessionNameNew "/a/foo/bar" 2 = "foo/bar" ∧
    getSessionNameRecursive [("bar", none)] "/a/foo/bar" 1 10 = some "a/foo/bar" ∧
    "a/foo/bar" ≠ "foo/bar" := by decide

/-- C1 (corrected).  Collision escalation: when the colliding session's
root-path marker is readable but different from the target path the resolver
retries with `k + 1` trailing components, but when the marker is unreadable
or absent it retries with `k + 2`; in particular the foreign-session `bar`
scenario for `/a/foo/bar` with `session_name_path_components = 1` escalates
to the 3-component name `a/foo/bar`, not the 2-component `foo/bar`. -/
theorem c1_collision_escalation :
    (∀ (st : TmuxState) (path : String) (k fuel : Nat) (r : String),
        hasSession st (sessionNameNew path k) = true →
        getTwmRoot st (sessionNameNew path k) = some r →
        r ≠ path →
        getSessionNameRecursive st path k (fuel + 1) =
          getSessionNameRecursive st path (k + 1) fuel) ∧
    (∀ (st : TmuxState) (path : String) (k fuel : Nat),
        hasSession st (sessionNameNew path k) = true →
        getTwmRoot st (sessionNameNew path k) = none →
        getSessionNameRecursive st path k (fuel + 1) =
          getSessionNameRecursive st path (k + 2) fuel) ∧
    getSessionNameRecursive [("bar", none)] "/a/foo/bar" 1 10 = some "a/foo/bar" := by
  refine ⟨?_, ?_, by decide⟩
  · intro st path k fuel r hs hr hne
    exact resolve_step_mismatch st path k fuel r hs hr hne
  · intro st path k fuel hs hr
    exact resolve_step_absent st path k fuel hs hr

/-- Open step: when the resolved name already carries a session, the open
attaches and leaves the state unchanged. -/
theorem openWorkspace_attach (st : TmuxState) (path : String) (k fuel : Nat)
    (n : String) (hres : getSessionNameRecursive st path k fuel = some n)
    (hs : hasSession st n = true) :
    openWorkspace st path k fuel = some ⟨st, n, false⟩ := by
  simp [openWorkspace, hres, hs]

/-- Open step: when the resolved name is free, the open creates a session
carrying the workspace path as its root marker. -/
theorem openWorkspace_create (st : TmuxState) (path : String) (k fuel : Nat)
    (n : String) (hres : getSessionNameRecursive st path k fuel = some n)
    (hs : hasSession st n = false) :
    openWorkspace st path k fuel = some ⟨(n, some path) :: st, n, true⟩ := by
  simp [openWorkspace, hres, hs]

/-- C4 (confirmed).  Opening a workspace is idempotent: if an open of path
`P` succeeds (resolving name `n`, possibly creating session `n` with its
root-path marker set to `P`), then a second resolution against the resulting
state yields the same name `n`, and the second open attaches — it performs no
create and leaves the multiplexer state unchanged. -/
theorem c4_open_idempotence (st : TmuxState) (path : String) (k fuel : Nat)
    (res : OpenResult) (h : openWorkspace st path k fuel = some res) :
    getSessionNameRecursive res.state path k fuel = some res.name ∧
    openWorkspace res.state path k fuel = some ⟨res.state, res.name, false⟩ := by
  cases hres : getSessionNameRecursive st path k fuel with
  | none =>
    rw [openWorkspace] at h
    rw [hres] at h
    exact absurd h (by simp)
  | some n =>
    by_cases hs : hasSession st n = true
    · rw [openWorkspace_attach st path k fuel n hres hs] at h
      have hresEq : res = ⟨st, n, false⟩ := (Option.some.inj h).symm
      subst hresEq
      exact ⟨hres, openWorkspace_attach st path k fuel n hres hs⟩
    · have hs' : hasSession st n = false := Bool.eq_false_iff.mpr hs
      rw [openWorkspace_create st path k fuel n hres hs'] at h
      have hresEq : res = ⟨(n, some path) :: st, n, true⟩ := (Option.some.inj h).symm
      subst hresEq
      have hhas : hasSession ((n, some path) :: st) n = true :=
        hasSession_cons_self st n (some path)
      have hroot : getTwmRoot ((n, some path) :: st) n = some path :=
        getTwmRoot_cons_self st n (some path)
      have hstable :=
        resolve_stable st ((n, some path) :: st) path n hhas hroot
          (fun m hm => hasSession_cons_ne st (some path) hm)
          (fun m hm => getTwmRoot_cons_ne st (some path) hm) fuel k hres
      exact ⟨hstable, openWorkspace_attach ((n, some path) :: st) path k fuel n hstable hhas⟩

/-- Witness for C4: opening `/a/b` in an empty multiplexer state creates
session `b`; the second open of the resulting state resolves `b` again and
attaches without creating. -/
theorem c4_witness :
    getSessionNameRecursive [("b", some "/a/b")] "/a/b" 1 3 = some "b" ∧
    openWorkspace [("b", some "/a/b")] "/a/b" 1 3 =
      some ⟨[("b", some "/a/b")], "b", false⟩ :=
  c4_open_idempotence [] "/a/b" 1 3 ⟨[("b", some "/a/b")], "b", true⟩ (by decide)

/-! ### Scanner claim -/

/-- Counterexample to C6: with `node_modules` excluded, the walk still yields
(visits) the `node_modules` directory — the exclusion is applied as a filter
on the walk's output, not as a prune before recursing — even though the
`root/proj/node_modules/pkg/.git` subtree produces zero candidates. -/
theorem c6_counterexample :
    ((walkEntries exScanConfig.max_search_depth [] exScanTree).map Prod.fst).contains
      ["root", "proj", "node_modules"] = true ∧
    ((walkEntries exScanConfig.max_search_depth [] exScanTree).map Prod.fst).contains
      ["root", "proj", "node_modules", "pkg"] = true ∧
    pathHasExcludedComponent exScanConfig.exclude_path_components
      ["root", "proj", "node_modules"] = true ∧
    findWorkspacesInDir [] exScanTree exScanConfig = [] := by decide

/-- C6 (corrected).  Exclusion is a post-walk filter, not a prune: every
emitted candidate's path contains no excluded component (so no excluded
directory nor any of its descendants is ever emitted), but excluded
directories and their descendants are still visited by the walk, and the
`proj/node_modules/pkg/.git` scenario yields zero candidates. -/
theorem c6_exclusion_filters_candidates (parent : List String) (root : FsEntry)
    (config : TwmGlobal) (p : List String)
    (hp : p ∈ findWorkspacesInDir parent root config) :
    pathHasExcludedComponent config.exclude_path_components p = false ∧
    ((walkEntries exScanConfig.max_search_depth [] exScanTree).map Prod.fst).contains
      ["root", "proj", "node_modules"] = true ∧
    findWorkspacesInDir [] exScanTree exScanConfig = [] := by
  refine ⟨?_, by decide, by decide⟩
  unfold findWorkspacesInDir at hp
  rw [List.mem_filterMap] at hp
  obtain ⟨ent, hmem, hf⟩ := hp
  rw [List.mem_filter] at hmem
  obtain ⟨-, hpred⟩ := hmem
  obtain ⟨pt, oc⟩ := ent
  cases oc with
  | none => exact absurd hf (by simp)
  | some children =>
    rw [Bool.and_eq_true] at hpred
    have hex := hpred.2
    rw [Bool.not_eq_true'] at hex
    simp only at hf
    have hpt : pt = p := by
      by_cases hcond :
          config.workspace_definitions.any
            (fun w => pathMeetsWorkspaceConditions (fileExistsIn children) w.conditions) = true
      · rw [if_pos hcond] at hf
        exact Option.some.inj hf
      · rw [if_neg hcond] at hf
        exact absurd hf (by simp)
    rw [← hpt]
    exact hex

/-- Witness for C6: a candidate actually emitted (`proj`, containing `.git`)
has no excluded component on its path. -/
theorem c6_witness :
    pathHasExcludedComponent exScanConfig.exclude_path_components ["proj"] = false ∧
    ((walkEntries exScanConfig.max_search_depth [] exScanTree).map Prod.fst).contains
      ["root", "proj", "node_modules"] = true ∧
    findWorkspacesInDir [] exScanTree exScanConfig = [] :=
  c6_exclusion_filters_candidates [] (.dir "proj" [.dir ".git" []]) exScanConfig
    ["proj"] (by decide)

/-! ### Picker claim -/

/-- Counterexample to C9: starting from nothing selected, a render with 4
matches selects index 0, three up-moves reach index 3 (the last match), and a
render after the match set narrows to 3 leaves the selection at index 3 —
selection exists, the match set is non-empty, yet the selected index is above
the last visible match (index 2), because the render clamp compares with a
strict greater-than. -/
theorem c9_counterexample :
    pickerRun [.tick 4, .up 4, .up 4, .up 4, .tick 3] = some 3 ∧
    selectionInBounds 3 (pickerRun [.tick 4, .up 4, .up 4, .up 4, .tick 3]) = false := by
  decide

/-- C9 (corrected).  Movement saturates (an up-move at or beyond the last
match and a down-move at the first match leave the selection unchanged, and
an up-move strictly below the last match increments it), the selection resets
to none whenever the match set is empty at a render, and after a render with
a non-empty match set the selected index is at most the match count — i.e. at
most one position past the last visible match, the bound the strict
greater-than clamp actually enforces. -/
theorem c9_selection_bounds :
    (∀ c i : Nat, i ≥ c - 1 → moveCursorUp c (some i) = some i) ∧
    (∀ c i : Nat, i + 1 < c → moveCursorUp c (some i) = some (i + 1)) ∧
    (moveCursorDown (some 0) = some 0) ∧
    (∀ i : Nat, moveCursorDown (some (i + 1)) = some i) ∧
    (∀ evs : List PickerEvent, pickerRun (evs ++ [.tick 0]) = none) ∧
    (∀ (evs : List PickerEvent) (c : Nat), c ≠ 0 →
        ∃ j, pickerRun (evs ++ [.tick c]) = some j ∧ j ≤ c) := by
  refine ⟨?_, ?_, rfl, fun i => rfl, ?_, ?_⟩
  · intro c i hi
    unfold moveCursorUp
    by_cases hc : c = 0
    · simp [hc]
    · simp [hc, hi]
  · intro c i hi
    have hc : ¬c = 0 := by omega
    have hlt : ¬i ≥ c - 1 := by omega
    unfold moveCursorUp
    simp [hc, hlt]
  · intro evs
    rw [pickerRun, List.foldl_append]
    cases (List.foldl pickerStep none evs) with
    | none => rfl
    | some i => rfl
  · intro evs c hc
    rw [pickerRun, List.foldl_append]
    cases (List.foldl pickerStep none evs) with
    | none =>
      refine ⟨0, ?_, Nat.zero_le c⟩
      simp only [List.foldl_cons, List.foldl_nil, pickerStep, renderClampSelection]
      rw [if_pos (Nat.pos_of_ne_zero hc)]
    | some i =>
      simp only [List.foldl_cons, List.foldl_nil, pickerStep, renderClampSelection]
      rw [if_neg hc]
      by_cases hgt : i > c
      · rw [if_pos hgt]
        exact ⟨c - 1, rfl, Nat.sub_le c 1⟩
      · rw [if_neg hgt]
        exact ⟨i, rfl, Nat.le_of_not_lt hgt⟩

end Twm
